import Mathlib

/-!
Shallow embedding of the netlink transport core
(`pyroute2/netlink/__init__.py`): the frame parser (`marshal.parse`),
the message-routing step of the I/O thread (`iothread.parse`), and the
facade operations `netlink.get`, `netlink.nonce`, `netlink.monitor`,
`netlink.mirror`.  Buffers are lists of byte values; machine integers
are `Nat`/`Int` with explicit truncation where it matters; fallible
Python code (raised exceptions) is embedded with `Except`.
-/

/-! ## Protocol constants (source lines 18-38) -/

def NLM_F_REQUEST : Nat := 1
def NLM_F_MULTI : Nat := 2
def NLM_F_ACK : Nat := 4

def NLMSG_NOOP : Nat := 0x1
def NLMSG_ERROR : Nat := 0x2
def NLMSG_DONE : Nat := 0x3

/-! ## Byte-buffer reading primitives

Model of reads from the `io.BytesIO` buffer used by `marshal`.
`readBytes data pos n` is `buf.seek(pos); buf.read(n)` followed by a
`struct.unpack` of exactly `n` bytes: it fails (as `struct.error` does)
when fewer than `n` bytes remain. -/

def readBytes (data : List Nat) (pos n : Nat) : Option (List Nat) :=
  if pos + n ≤ data.length then some ((data.drop pos).take n) else none

/-- Little-endian value of a byte list: `struct.unpack` with a
little-endian integer format. -/
def bytesToNatLE : List Nat → Nat
  | [] => 0
  | b :: bs => b + 256 * bytesToNatLE bs

/-- Unsigned 32-bit little-endian read: `struct.unpack('I', ...)`. -/
def readU32LE (data : List Nat) (pos : Nat) : Option Nat :=
  (readBytes data pos 4).map bytesToNatLE

/-- Unsigned 16-bit little-endian read: `struct.unpack('H', ...)`. -/
def readU16LE (data : List Nat) (pos : Nat) : Option Nat :=
  (readBytes data pos 2).map bytesToNatLE

/-- Signed 32-bit little-endian read (two's complement):
`struct.unpack('i', ...)`. -/
def readI32LE (data : List Nat) (pos : Nat) : Option Int :=
  (readBytes data pos 4).map fun bs =>
    let v := bytesToNatLE bs
    if v < 2 ^ 31 then (v : Int) else (v : Int) - 2 ^ 32

/-! ## Messages -/

/-- Decoded netlink message: the common header fields
{`length`, `type`, `flags`, `sequence_number`, `pid`} of
`msg['header']`, the `error` slot that `marshal.parse` fills in
(`None` or a `netlink_error` carrying an OS error code), and the
opaque type-specific payload bytes. -/
structure nlmsg where
  length : Nat
  type : Nat
  flags : Nat
  sequence_number : Nat
  pid : Nat
  error : Option Nat
  body : List Nat
deriving DecidableEq, Repr

/-- Modelled from the spec: the generic fallback codec `nlmsg.decode`
lives in `pyroute2.netlink.generic`, which is not among the provided
source files.  Per the spec's collaborator contract and wire-header
layout, it reads the common header at the cursor — little-endian
uint32 total frame length at offset 0, uint16 type at 4, uint16 flags
at 6, uint32 sequence/correlation id at 8, uint32 pid at 12 — keeps
the remaining `length - 16` bytes as the opaque body, sets the
message's `length` to the declared length, and leaves the cursor at
frame start plus declared length.  Returns the message (with no error
yet) and the new cursor position. -/
def nlmsg_decode (data : List Nat) (pos : Nat) : Option (nlmsg × Nat) :=
  (readU32LE data pos).bind fun len =>
  (readU16LE data (pos + 4)).bind fun ty =>
  (readU16LE data (pos + 6)).bind fun flags =>
  (readU32LE data (pos + 8)).bind fun seq =>
  (readU32LE data (pos + 12)).bind fun pid =>
  (readBytes data (pos + 16) (len - 16)).bind fun body =>
  some (⟨len, ty, flags, seq, pid, none, body⟩, pos + len)

/-! ## Frame parser: `marshal.parse` (source lines 77-105) -/

/-- Failure modes of a `marshal.parse` call: `truncated` stands for the
`struct.error`/decode failure raised on a buffer whose declared lengths
are inconsistent with the available bytes, and `diverged` marks an
input on which the source's `while offset < total` loop never
terminates (a zero declared frame length). -/
inductive perr where
  | truncated
  | diverged
deriving DecidableEq, Repr

/-- Error peek of `marshal.parse` for a frame of type `msg_type`: when
the type is `NLMSG_ERROR`, the source runs `self.buf.seek(16)` — an
absolute seek to byte 16 of the buffer, not relative to the current
frame's start — reads the signed 32-bit code there and takes
`abs(...)`; a positive result becomes a `netlink_error`. -/
def marshal_err_peek (data : List Nat) (msg_type : Nat) : Except perr (Option Nat) :=
  if msg_type = NLMSG_ERROR then
    match readI32LE data 16 with
    | some code => .ok (if 0 < code.natAbs then some code.natAbs else none)
    | none => .error .truncated
  else .ok none

/-- Loop body of `marshal.parse`, with explicit fuel standing for the
unguarded `while offset < total` loop.  At the top of each iteration
the buffer cursor equals `offset`: the spec-modelled decode of the
previous frame left the cursor at frame start plus declared length,
which is exactly the updated `offset`.  Each iteration reads the
6-byte length/type prefix, runs the error peek, re-seeks to `offset`,
decodes the message, stores the error in the header, runs the no-op
`fix_message` hook, and advances `offset` by the decoded message's
declared length. -/
def marshal_parse_loop (data : List Nat) : Nat → Nat → List nlmsg → Except perr (List nlmsg)
  | 0, offset, result =>
    if offset < data.length then .error .diverged else .ok result
  | fuel' + 1, offset, result =>
    if offset < data.length then
      match readU32LE data offset, readU16LE data (offset + 4) with
      | some _length, some msg_type =>
        match marshal_err_peek data msg_type with
        | .error e => .error e
        | .ok error =>
          match nlmsg_decode data offset with
          | none => .error .truncated
          | some (msg, _) =>
            marshal_parse_loop data fuel' (offset + msg.length)
              (result ++ [{ msg with error := error }])
      | _, _ => .error .truncated
    else .ok result

/-- Embedding of `marshal.parse`: set the buffer, then run the cursor
loop from offset 0 with an empty result list.  `data.length + 1` fuel
is enough for any run of the source loop that terminates, since every
iteration of a terminating run advances `offset` by at least one. -/
def marshal_parse (data : List Nat) : Except perr (List nlmsg) :=
  marshal_parse_loop data (data.length + 1) 0 []

/-! ## Nonce generator: `netlink.nonce` (source lines 361-370) -/

/-- Initial value of `netlink._nonce` (source line 349). -/
def netlink_init_nonce : Nat := 1

/-- Embedding of `netlink.nonce`: state-passing form of the mutation of
`self._nonce`.  Returns (new counter state, returned value); the
method returns `self._nonce` after updating it. -/
def netlink_nonce (s : Nat) : Nat × Nat :=
  if s = 0xffffffff then (1, 1) else (s + 1, s + 1)

/-! ## Little-endian encoders (used to build concrete test frames) -/

/-- Four little-endian bytes of an unsigned 32-bit value. -/
def u32le (n : Nat) : List Nat :=
  [n % 256, n / 2 ^ 8 % 256, n / 2 ^ 16 % 256, n / 2 ^ 24 % 256]

/-- Two little-endian bytes of an unsigned 16-bit value. -/
def u16le (n : Nat) : List Nat :=
  [n % 256, n / 2 ^ 8 % 256]

/-- Wire encoding of an error-type frame (type `NLMSG_ERROR`): common
header followed by the int32 error code field at frame offset 16.
The declared length is `20`, the full frame size. -/
def errFrame (code : Nat) : List Nat :=
  u32le 20 ++ u16le NLMSG_ERROR ++ u16le 0 ++ u32le 0 ++ u32le 0 ++ u32le code

/-! ## Queue table, heap of message objects, and routing state

The queue table `self.listeners` maps a correlation id to a
`Queue.Queue`; it is shared by the `iothread` and the `netlink`
facade (`self.listeners = self.iothread.listeners`).  Because
mirroring enqueues `copy.deepcopy(msg)` while the primary enqueue
reuses the same `msg` object, queues hold object identifiers into an
explicit store, so that aliasing and deep-copying are observable. -/

/-- Python exceptions raised by the embedded methods: `netlink_error`
(carrying its OS error code), `KeyError` from a failed dict lookup or
`del`, and `TypeError` from calling a function with an unexpected
keyword argument. -/
inductive pyerr where
  | netlinkError (code : Nat)
  | keyError
  | typeError
deriving DecidableEq, Repr

/-- Queue table: correlation id to queue of message object ids, `none`
when the key is not in the dict. -/
def Listeners : Type := Nat → Option (List Nat)

/-- Pointwise dict update: `L[k] = v` (or `del L[k]` with `v = none`). -/
def upd_listeners (L : Listeners) (k : Nat) (v : Option (List Nat)) : Listeners :=
  fun k' => if k' = k then v else L k'

/-- Shared state of the facade and its I/O thread: the queue table, the
heap of live message objects (object id to value), the allocator for
fresh object ids produced by `copy.deepcopy`, and `iothread.mirror`. -/
structure iostate where
  listeners : Listeners
  store : Nat → nlmsg
  nextId : Nat
  mirror : Bool

/-- In-place mutation of one message object in the heap, as a consumer
mutating a dequeued-and-aliased message would do; used to express that
the mirrored deep copy is independent of the original. -/
def mutate_store (st : iostate) (i : Nat) (v : nlmsg) : iostate :=
  { st with store := fun j => if j = i then v else st.store j }

/-- Embedding of the routing step of `iothread.parse` (source lines
195-202) for one decoded message `msgId`: take `key` from the
message's `sequence_number`, redirect to 0 when no queue exists for
it; when `self.mirror` is set and the effective key is nonzero, look
up `self.listeners[0]` — a plain dict subscript, raising `KeyError`
when queue 0 is absent — and put a `copy.deepcopy` of the message
(a fresh object id holding the same value) into it; finally, when a
queue exists for the effective key, put the original object into it,
and otherwise do nothing. -/
def iothread_parse_msg (st : iostate) (msgId : Nat) : Except pyerr iostate :=
  let key0 := (st.store msgId).sequence_number
  let key := if (st.listeners key0).isNone then 0 else key0
  let step1 : Except pyerr iostate :=
    if st.mirror = true ∧ key ≠ 0 then
      match st.listeners 0 with
      | none => .error .keyError
      | some q0 =>
        .ok { st with
              listeners := upd_listeners st.listeners 0 (some (q0 ++ [st.nextId])),
              store := fun i => if i = st.nextId then st.store msgId else st.store i,
              nextId := st.nextId + 1 }
    else .ok st
  match step1 with
  | .error e => .error e
  | .ok st1 =>
    match st1.listeners key with
    | some q =>
      .ok { st1 with listeners := upd_listeners st1.listeners key (some (q ++ [msgId])) }
    | none => .ok st1

/-! ## Facade: `netlink.monitor`, `netlink.mirror` (source lines 372-394) -/

/-- Embedding of `netlink.monitor`: create the default 0 queue (a fresh
empty `Queue.Queue`) when `operate` is true, else `del
self.listeners[0]`, which raises `KeyError` when the key is absent. -/
def netlink_monitor (st : iostate) (operate : Bool) : Except pyerr iostate :=
  if operate then
    .ok { st with listeners := upd_listeners st.listeners 0 (some []) }
  else
    match st.listeners 0 with
    | none => .error .keyError
    | some _ => .ok { st with listeners := upd_listeners st.listeners 0 none }

/-- Embedding of `netlink.mirror`: `self.monitor(operate)` followed by
`self.iothread.mirror = operate`. -/
def netlink_mirror (st : iostate) (operate : Bool) : Except pyerr iostate :=
  match netlink_monitor st operate with
  | .error e => .error e
  | .ok st1 => .ok { st1 with mirror := operate }

/-! ## Facade: `netlink.get` (source lines 396-435) -/

/-- Embedding of the `while True` receive loop of `netlink.get` over
the sequence of object ids the queue will deliver.  Returns `none`
when the queue runs dry before a terminal message (the real call would
block); otherwise returns the raised error or the accumulated result,
together with the ids still queued.  Per iteration, in source order:
raise the message's header error if not `None`; append the message to
the result unless its type is `NLMSG_DONE`; stop when the type is
`NLMSG_DONE` or the `NLM_F_MULTI` flag is clear. -/
def netlink_get_loop (store : Nat → nlmsg) :
    List Nat → List Nat → Option (Except pyerr (List Nat) × List Nat)
  | [], _ => none
  | i :: rest, result =>
    match (store i).error with
    | some code => some (.error (.netlinkError code), rest)
    | none =>
      let result :=
        if (store i).type ≠ NLMSG_DONE then result ++ [i] else result
      if (store i).type = NLMSG_DONE ∨ (store i).flags &&& NLM_F_MULTI = 0 then
        some (.ok result, rest)
      else
        netlink_get_loop store rest result

/-- Embedding of `netlink.get`: look up `self.listeners[key]` (a
`KeyError` when absent), run the receive loop, and on normal
completion for a nonzero key delete the queue and enter the drain
loop `while not queue.empty()`.  The drain body calls
`queue.get(bloc=True, timeout=tot)`: `Queue.Queue.get` has no
parameter named `bloc`, so the call raises `TypeError` as soon as the
leftover queue is non-empty, before anything is re-enqueued. -/
def netlink_get (st : iostate) (key : Nat) :
    Option (Except pyerr (List Nat) × iostate) :=
  match st.listeners key with
  | none => some (.error .keyError, st)
  | some queue =>
    match netlink_get_loop st.store queue [] with
    | none => none
    | some (.error e, rest) =>
      some (.error e, { st with listeners := upd_listeners st.listeners key (some rest) })
    | some (.ok result, rest) =>
      if key ≠ 0 then
        let st1 := { st with listeners := upd_listeners st.listeners key none }
        if rest.isEmpty then some (.ok result, st1)
        else some (.error .typeError, st1)
      else
        some (.ok result, { st with listeners := upd_listeners st.listeners key (some rest) })

/-! ## Derived notions used in theorem statements -/

/-- Effective destination key of the routing rule: the message's
correlation id, redirected to 0 when no queue is registered for it. -/
def effKey (st : iostate) (msgId : Nat) : Nat :=
  if (st.listeners (st.store msgId).sequence_number).isNone then 0
  else (st.store msgId).sequence_number

/-! ## Concrete states and buffers for counterexamples and witnesses -/

/-- Buffer of two back-to-back frames: a 16-byte NOOP-type frame
followed by a 20-byte error-type frame whose own int32 code field
(at 16 bytes from its frame start, absolute offset 32) is zero. -/
def errorOffsetBuf : List Nat :=
  [16, 0, 0, 0, 1, 0, 0, 0, 0, 0, 0, 0, 0, 0, 0, 0] ++
  [20, 0, 0, 0, 2, 0, 0, 0, 0, 0, 0, 0, 0, 0, 0, 0, 0, 0, 0, 0]

/-- State for the drain-step evaluation: queue 5 delivers one
terminal reply (type 16, flags 0, no error) and then one extra
message; the default queue 0 exists and is empty. -/
def drainBugState : iostate where
  listeners := fun k => if k = 5 then some [0, 1] else if k = 0 then some [] else none
  store := fun _ => ⟨20, 16, 0, 5, 0, none, []⟩
  nextId := 2
  mirror := false

/-- State for the C4 counterexample: mirroring is on, queue 3 is live,
queue 0 does not exist, and object 0 is a message correlated to 3. -/
def mirrorCex4state : iostate where
  listeners := fun k => if k = 3 then some [] else none
  store := fun _ => ⟨20, 16, NLM_F_MULTI, 3, 0, none, []⟩
  nextId := 1
  mirror := true

/-- State for the C5 counterexample: mirroring is on, queue 7 is live
holding one id, queue 0 does not exist, and object 0 is a message
correlated to 7. -/
def mirrorCex5state : iostate where
  listeners := fun k => if k = 7 then some [9] else none
  store := fun _ => ⟨20, 16, NLM_F_MULTI, 7, 0, none, []⟩
  nextId := 10
  mirror := true

/-- State for the C4 witness: no mirroring, the default queue exists
and is empty, and object 0 is a message correlated to the dead key 9
(a correlation miss that redirects to queue 0). -/
def routeW4state : iostate where
  listeners := fun k => if k = 0 then some [] else none
  store := fun _ => ⟨20, 16, NLM_F_MULTI, 9, 0, none, []⟩
  nextId := 1
  mirror := false

/-- State for the C3 witness: queue 4 delivers two error-free MULTI
replies (ids 0 and 1) followed by a DONE-type message (id 2). -/
def getW3state : iostate where
  listeners := fun k => if k = 4 then some [0, 1, 2] else none
  store := fun i =>
    if i = 2 then ⟨16, NLMSG_DONE, NLM_F_MULTI, 4, 0, none, []⟩
    else ⟨20, 16, NLM_F_MULTI, 4, 0, none, []⟩
  nextId := 3
  mirror := false

/-- State for the C8 witness: no mirroring yet, queue 5 is live and
empty, and object 0 is a message correlated to 5. -/
def mirrorW8state : iostate where
  listeners := fun k => if k = 5 then some [] else none
  store := fun _ => ⟨20, 16, NLM_F_MULTI, 5, 0, none, []⟩
  nextId := 1
  mirror := false

/-- State for the C10 witness: queue 6 delivers one error-free MULTI
reply (id 0), then a message carrying error code 95 (id 1), with one
more message (id 2) left behind. -/
def getW10state : iostate where
  listeners := fun k => if k = 6 then some [0, 1, 2] else none
  store := fun i =>
    if i = 1 then ⟨36, NLMSG_ERROR, 0, 6, 0, some 95, u32le 95⟩
    else ⟨20, 16, NLM_F_MULTI, 6, 0, none, []⟩
  nextId := 3
  mirror := false

/-- Frames for the C6 witness: a 16-byte DONE-type frame followed by a
16-byte NOOP-type frame, declared lengths matching their sizes. -/
def framesW6 : List (List Nat) :=
  [[16, 0, 0, 0, 3, 0, 0, 0, 0, 0, 0, 0, 0, 0, 0, 0],
   [16, 0, 0, 0, 1, 0, 0, 0, 0, 0, 0, 0, 0, 0, 0, 0]]

/-! ## Helper lemmas -/

/-- Applying a dict update at a key. -/
theorem upd_listeners_apply (L : Listeners) (k : Nat) (v : Option (List Nat)) (j : Nat) :
    upd_listeners L k v j = if j = k then v else L j := rfl

/-! ## Claim theorems -/

/-- Claim C9: the nonce generator is monotonically increasing modulo
wraparound.  On every counter state in the reachable range
`1 ≤ s ≤ 0xffffffff`, a call returns the incremented value (or 1 when
the counter holds the maximum), the returned value equals the new
counter state, is never 0, and stays in the reachable range; the
initial counter state is in the range, so every state reached by
iterating calls from it stays there. -/
theorem nonce_spec :
    (∀ s : Nat, 1 ≤ s → s ≤ 0xffffffff →
      (netlink_nonce s).2 = (if s = 0xffffffff then 1 else s + 1) ∧
      (netlink_nonce s).2 = (netlink_nonce s).1 ∧
      (netlink_nonce s).2 ≠ 0 ∧
      1 ≤ (netlink_nonce s).1 ∧ (netlink_nonce s).1 ≤ 0xffffffff) ∧
    (netlink_nonce 0xffffffff).2 = 1 ∧
    1 ≤ netlink_init_nonce ∧ netlink_init_nonce ≤ 0xffffffff ∧
    (∀ n : Nat, (fun s => (netlink_nonce s).1)^[n] netlink_init_nonce ≠ 0) := by
  have hstep : ∀ s : Nat, 1 ≤ s →
      1 ≤ (netlink_nonce s).1 ∧ (netlink_nonce s).1 ≠ 0 := by
    intro s hs
    unfold netlink_nonce
    split <;> simp <;> omega
  refine ⟨?_, ?_, ?_, ?_, ?_⟩
  · intro s h1 h2
    unfold netlink_nonce
    split <;> simp_all <;> omega
  · rfl
  · exact le_refl 1
  · norm_num [netlink_init_nonce]
  · intro n
    have key : ∀ n : Nat, 1 ≤ (fun s => (netlink_nonce s).1)^[n] netlink_init_nonce := by
      intro m
      induction m with
      | zero => simp [netlink_init_nonce]
      | succ m ih =>
        rw [Function.iterate_succ_apply']
        exact (hstep _ ih).1
    have := key n
    omega

/-- Witness for C9 at the wraparound point: a call made with the
counter at the 32-bit maximum returns a nonzero value (namely 1). -/
theorem nonce_spec_witness : (netlink_nonce 0xffffffff).2 ≠ 0 :=
  (nonce_spec.1 0xffffffff (by norm_num) (by norm_num)).2.2.1

/-- Claim C1 (evaluating the code at the failing input): in a
two-frame buffer whose second frame is an error-type frame starting
at offset 16, `marshal.parse` takes the error code from absolute
buffer offset 16 (the second frame's length field, value 20) instead
of 16 bytes past that frame's start (absolute offset 32, where the
code field holds 0): the decoded second message carries `error = 20`
although its own code field is zero. -/
theorem parse_error_code_absolute_offset :
    marshal_parse errorOffsetBuf =
      .ok [⟨16, NLMSG_NOOP, 0, 0, 0, none, []⟩,
           ⟨20, NLMSG_ERROR, 0, 0, 0, some 20, [0, 0, 0, 0]⟩] ∧
    readI32LE errorOffsetBuf (16 + 16) = some 0 := by
  exact ⟨rfl, rfl⟩

/-- Claim C2 (evaluating the code at the failing input): a `get` on
non-default key 5 whose queue still holds a message after the
terminal reply deletes queue 5, but then the drain loop's
`queue.get(bloc=True, timeout=tot)` raises `TypeError` (unexpected
keyword argument) instead of re-enqueueing the leftover message into
the existing default queue and returning the accumulated result. -/
theorem get_drain_typeerror :
    ∃ st', netlink_get drainBugState 5 = some (.error .typeError, st') ∧
      st'.listeners 5 = none ∧ st'.listeners 0 = some [] := by
  exact ⟨_, rfl, rfl, rfl⟩

/-- Claim C5, counterexample: with mirroring enabled, queue 7 live and
holding one message id, and no default queue, routing a message
correlated to 7 raises `KeyError` from `self.listeners[0]` — it does
not silently lose only the mirrored copy while performing the primary
enqueue. -/
theorem mirror_silent_loss_cex :
    iothread_parse_msg mirrorCex5state 0 = .error .keyError := rfl

/-- Claim C5, amended: when the mirror flag is enabled but the default
queue 0 does not exist, routing a decoded message destined for a live
queue K ≠ 0 raises `KeyError` from the mirror step's
`self.listeners[0]` lookup; the primary enqueue into queue K never
happens (the step produces no new state) and the mirrored copy is
lost. -/
theorem mirror_no_default_raises (st : iostate) (msgId : Nat)
    (hm : st.mirror = true)
    (hlive : (st.listeners (st.store msgId).sequence_number).isSome)
    (hK : (st.store msgId).sequence_number ≠ 0)
    (h0 : st.listeners 0 = none) :
    iothread_parse_msg st msgId = .error .keyError := by
  have hnn : (st.listeners (st.store msgId).sequence_number).isNone = false := by
    rcases h : st.listeners (st.store msgId).sequence_number with _ | q
    · rw [h] at hlive; simp at hlive
    · simp
  simp only [iothread_parse_msg, hnn, Bool.false_eq_true, if_false]
  rw [if_pos ⟨hm, hK⟩, h0]

/-- Witness for C5: the amended statement applied to the concrete
counterexample state. -/
theorem mirror_no_default_raises_witness :
    iothread_parse_msg mirrorCex5state 0 = .error .keyError :=
  mirror_no_default_raises mirrorCex5state 0 rfl (by simp [mirrorCex5state])
    (by simp [mirrorCex5state]) rfl

/-- Claim C4, counterexample: a decoded message whose correlation id 3
has a live queue, in a state with mirroring enabled and no default
queue 0, is not enqueued into queue 3 and not silently dropped —
routing raises `KeyError` from the mirror step. -/
theorem routing_mirror_keyerror_cex :
    iothread_parse_msg mirrorCex4state 0 = .error .keyError := rfl

/-- Claim C4, amended: the routing rule holds provided that, whenever
the mirror flag is set and the effective destination key is nonzero,
the default queue exists (otherwise the mirror step raises `KeyError`
and no enqueue happens).  Under that proviso: the message's
correlation id is redirected to 0 when it has no queue; the message
is appended to the effective destination queue when that queue
exists; and otherwise — in particular on a correlation miss with no
default queue, whatever the mirror flag — the message is silently
dropped, leaving the state unchanged, with no error raised. -/
theorem routing_rule_amended (st : iostate) (msgId : Nat)
    (hsafe : st.mirror = true → effKey st msgId ≠ 0 → (st.listeners 0).isSome) :
    (∀ q, st.listeners (effKey st msgId) = some q →
      ∃ st', iothread_parse_msg st msgId = .ok st' ∧
        st'.listeners (effKey st msgId) = some (q ++ [msgId])) ∧
    (st.listeners (effKey st msgId) = none →
      iothread_parse_msg st msgId = .ok st) := by
  rcases hmiss : st.listeners (st.store msgId).sequence_number with _ | q₀
  · -- correlation miss: redirect to key 0, mirror step skipped
    have hek : effKey st msgId = 0 := by simp [effKey, hmiss]
    rw [hek]
    have hstep : iothread_parse_msg st msgId =
        match st.listeners 0 with
        | some q =>
          .ok { st with listeners := upd_listeners st.listeners 0 (some (q ++ [msgId])) }
        | none => .ok st := by
      simp only [iothread_parse_msg, hmiss, Option.isNone_none, if_true]
      rw [if_neg (by simp)]
    constructor
    · intro q hq
      rw [hstep, hq]
      exact ⟨_, rfl, by simp [upd_listeners_apply]⟩
    · intro hq
      rw [hstep, hq]
  · -- live destination key
    have hek : effKey st msgId = (st.store msgId).sequence_number := by
      simp [effKey, hmiss]
    rw [hek]
    constructor
    · intro q hq
      have hq₀ : q₀ = q := by rw [hmiss] at hq; exact (Option.some.injEq _ _ ▸ hq :)
      subst hq₀
      by_cases hcond : st.mirror = true ∧ (st.store msgId).sequence_number ≠ 0
      · -- mirror step runs; hsafe provides queue 0
        obtain ⟨q0, h0⟩ : ∃ q0, st.listeners 0 = some q0 := by
          have := hsafe hcond.1 (hek ▸ hcond.2)
          rcases h : st.listeners 0 with _ | q0
          · rw [h] at this; simp at this
          · exact ⟨q0, rfl⟩
        have hmid : upd_listeners st.listeners 0 (some (q0 ++ [st.nextId]))
            (st.store msgId).sequence_number = some q₀ := by
          rw [upd_listeners_apply, if_neg hcond.2, hmiss]
        have hstep : iothread_parse_msg st msgId = .ok
            { listeners :=
                upd_listeners (upd_listeners st.listeners 0 (some (q0 ++ [st.nextId])))
                  (st.store msgId).sequence_number (some (q₀ ++ [msgId])),
              store := fun i => if i = st.nextId then st.store msgId else st.store i,
              nextId := st.nextId + 1,
              mirror := st.mirror } := by
          simp only [iothread_parse_msg, hmiss, Option.isNone_some, Bool.false_eq_true,
            if_false]
          rw [if_pos hcond, h0]
          simp only [hmid]
        exact ⟨_, hstep, by simp [upd_listeners_apply]⟩
      · -- no mirror step
        have hstep : iothread_parse_msg st msgId = .ok
            { st with
              listeners :=
                upd_listeners st.listeners (st.store msgId).sequence_number
                  (some (q₀ ++ [msgId])) } := by
          simp only [iothread_parse_msg, hmiss, Option.isNone_some, Bool.false_eq_true,
            if_false]
          rw [if_neg hcond]
          simp only [hmiss]
        exact ⟨_, hstep, by simp [upd_listeners_apply]⟩
    · intro hq
      rw [hmiss] at hq
      exact absurd hq (by simp)

/-- Witness for C4: in a no-mirror state where the message's
correlation id 9 has no queue and the default queue exists and is
empty, routing redirects to key 0 and appends the message there. -/
theorem routing_rule_amended_witness :
    ∃ st', iothread_parse_msg routeW4state 0 = .ok st' ∧
      st'.listeners (effKey routeW4state 0) = some ([] ++ [0]) :=
  (routing_rule_amended routeW4state 0
    (by intro h; simp [routeW4state] at h)).1 [] (by rfl)

/-- Claim C8: enabling `mirror` implicitly turns monitoring on,
creating the default queue 0, and a message subsequently routed to a
live queue K ≠ 0 is enqueued into K and additionally into queue 0 as
a deep copy: a freshly allocated object distinct from the original,
holding an equal value, such that mutating the queue-0 copy in place
never changes the queue-K original. -/
theorem mirror_deepcopy_independent (st : iostate) (K msgId : Nat) (q : List Nat)
    (hK : K ≠ 0)
    (hseq : (st.store msgId).sequence_number = K)
    (hq : st.listeners K = some q)
    (hid : msgId < st.nextId) :
    ∃ st1 st2, netlink_mirror st true = .ok st1 ∧
      st1.mirror = true ∧ st1.listeners 0 = some [] ∧
      iothread_parse_msg st1 msgId = .ok st2 ∧
      st2.listeners K = some (q ++ [msgId]) ∧
      st2.listeners 0 = some [st.nextId] ∧
      st.nextId ≠ msgId ∧
      st2.store st.nextId = st2.store msgId ∧
      (∀ v : nlmsg, (mutate_store st2 st.nextId v).store msgId = st2.store msgId) := by
  have hne : msgId ≠ st.nextId := by omega
  have hL1K : upd_listeners st.listeners 0 (some []) (st.store msgId).sequence_number
      = some q := by
    rw [hseq, upd_listeners_apply, if_neg hK, hq]
  have h0 : upd_listeners st.listeners 0 (some []) 0 = some [] := by
    rw [upd_listeners_apply, if_pos rfl]
  have hmK : upd_listeners (upd_listeners st.listeners 0 (some []))
      0 (some ([] ++ [st.nextId])) (st.store msgId).sequence_number = some q := by
    rw [hseq, upd_listeners_apply, if_neg hK, ← hseq, hL1K]
  have hroute : iothread_parse_msg
      { st with listeners := upd_listeners st.listeners 0 (some []), mirror := true }
      msgId = .ok
      { listeners :=
          upd_listeners
            (upd_listeners (upd_listeners st.listeners 0 (some []))
              0 (some ([] ++ [st.nextId])))
            (st.store msgId).sequence_number (some (q ++ [msgId])),
        store := fun i => if i = st.nextId then st.store msgId else st.store i,
        nextId := st.nextId + 1,
        mirror := true } := by
    have hseq0 : ¬((st.store msgId).sequence_number = 0) := by rw [hseq]; exact hK
    simp only [iothread_parse_msg, hL1K, Option.isNone_some, Bool.false_eq_true, if_false]
    rw [if_pos ⟨trivial, hseq0⟩, h0]
    simp only [hmK]
  refine ⟨{ st with listeners := upd_listeners st.listeners 0 (some []), mirror := true },
    _, rfl, rfl, h0, hroute, ?_, ?_, hne.symm, ?_, ?_⟩
  · simp [upd_listeners_apply, hseq]
  · simp [upd_listeners_apply, hseq, Ne.symm hK]
  · simp [hne]
  · intro v
    simp [mutate_store, hne]

/-- Witness for C8: the theorem applied to a concrete state with a
live empty queue 5, a message object 0 correlated to 5, and allocator
at 1. -/
theorem mirror_deepcopy_independent_witness :
    ∃ st1 st2, netlink_mirror mirrorW8state true = .ok st1 ∧
      st1.mirror = true ∧ st1.listeners 0 = some [] ∧
      iothread_parse_msg st1 0 = .ok st2 ∧
      st2.listeners 5 = some ([] ++ [0]) ∧
      st2.listeners 0 = some [mirrorW8state.nextId] ∧
      mirrorW8state.nextId ≠ 0 ∧
      st2.store mirrorW8state.nextId = st2.store 0 ∧
      (∀ v : nlmsg, (mutate_store st2 mirrorW8state.nextId v).store 0 = st2.store 0) :=
  mirror_deepcopy_independent mirrorW8state 5 0 [] (by decide) rfl rfl (by decide)

/-- Non-terminal, error-free messages are dequeued and appended to the
accumulated result without stopping the receive loop. -/
theorem netlink_get_loop_append (store : Nat → nlmsg) (ids rest acc : List Nat)
    (h : ∀ i ∈ ids, (store i).error = none ∧ (store i).type ≠ NLMSG_DONE ∧
      (store i).flags &&& NLM_F_MULTI ≠ 0) :
    netlink_get_loop store (ids ++ rest) acc = netlink_get_loop store rest (acc ++ ids) := by
  induction ids generalizing acc with
  | nil => simp
  | cons i is ih =>
    obtain ⟨he, ht, hf⟩ := h i (List.mem_cons_self i is)
    have hrec := ih (acc ++ [i]) (fun j hj => h j (List.mem_cons_of_mem i hj))
    simp only [List.cons_append, netlink_get_loop, he, if_pos ht]
    rw [if_neg (by simp [ht, hf] : ¬((store i).type = NLMSG_DONE ∨
      (store i).flags &&& NLM_F_MULTI = 0))]
    simpa [List.append_assoc] using hrec

/-- Claim C3: on a queue delivering error-free non-DONE messages that
all carry the MULTI flag followed by a terminal message `t` with no
error, `get` terminates: when `t` is DONE-type it returns exactly the
preceding messages in wire order (the DONE message is not appended),
and when `t` is a non-DONE reply lacking the MULTI flag it returns
the preceding messages plus `t`, no DONE message being needed. -/
theorem get_multipart_termination (st : iostate) (K : Nat) (ids : List Nat) (t : Nat)
    (hq : st.listeners K = some (ids ++ [t]))
    (hgood : ∀ i ∈ ids, (st.store i).error = none ∧ (st.store i).type ≠ NLMSG_DONE ∧
      (st.store i).flags &&& NLM_F_MULTI ≠ 0)
    (hterr : (st.store t).error = none) :
    ((st.store t).type = NLMSG_DONE →
      ∃ st', netlink_get st K = some (.ok ids, st')) ∧
    ((st.store t).type ≠ NLMSG_DONE → (st.store t).flags &&& NLM_F_MULTI = 0 →
      ∃ st', netlink_get st K = some (.ok (ids ++ [t]), st')) := by
  constructor
  · intro hdone
    have hloop : netlink_get_loop st.store (ids ++ [t]) [] = some (.ok ids, []) := by
      rw [netlink_get_loop_append st.store ids [t] [] hgood]
      simp [netlink_get_loop, hterr, hdone]
    by_cases hK : K = 0
    · subst hK
      have hstep : netlink_get st 0 = some (.ok ids,
          { st with listeners := upd_listeners st.listeners 0 (some []) }) := by
        simp only [netlink_get, hq, hloop]
        simp
      exact ⟨_, hstep⟩
    · have hstep : netlink_get st K = some (.ok ids,
          { st with listeners := upd_listeners st.listeners K none }) := by
        simp only [netlink_get, hq, hloop]
        rw [if_pos hK]
        simp
      exact ⟨_, hstep⟩
  · intro hnd hnm
    have hloop : netlink_get_loop st.store (ids ++ [t]) []
        = some (.ok (ids ++ [t]), []) := by
      rw [netlink_get_loop_append st.store ids [t] [] hgood]
      simp [netlink_get_loop, hterr, hnd, hnm]
    by_cases hK : K = 0
    · subst hK
      have hstep : netlink_get st 0 = some (.ok (ids ++ [t]),
          { st with listeners := upd_listeners st.listeners 0 (some []) }) := by
        simp only [netlink_get, hq, hloop]
        simp
      exact ⟨_, hstep⟩
    · have hstep : netlink_get st K = some (.ok (ids ++ [t]),
          { st with listeners := upd_listeners st.listeners K none }) := by
        simp only [netlink_get, hq, hloop]
        rw [if_pos hK]
        simp
      exact ⟨_, hstep⟩

/-- Witness for C3: queue 4 delivers two MULTI replies then a
DONE-type message; `get` returns the two reply ids in order. -/
theorem get_multipart_termination_witness :
    ∃ st', netlink_get getW3state 4 = some (.ok [0, 1], st') :=
  (get_multipart_termination getW3state 4 [0, 1] 2 rfl (by decide) rfl).1 rfl

/-- Claim C10: when `get` on a non-default key K dequeues a message
carrying a header error after a run of error-free MULTI replies, it
raises that error before the queue-deletion step: the call yields the
typed error and the queue registered under K is still present in the
queue table (holding the not-yet-consumed remainder). -/
theorem get_error_preserves_queue (st : iostate) (K : Nat) (ids : List Nat) (b : Nat)
    (rest : List Nat) (c : Nat)
    (hK : K ≠ 0)
    (hq : st.listeners K = some (ids ++ b :: rest))
    (hgood : ∀ i ∈ ids, (st.store i).error = none ∧ (st.store i).type ≠ NLMSG_DONE ∧
      (st.store i).flags &&& NLM_F_MULTI ≠ 0)
    (hbad : (st.store b).error = some c) :
    ∃ st', netlink_get st K = some (.error (.netlinkError c), st') ∧
      st'.listeners K = some rest := by
  have hloop : netlink_get_loop st.store (ids ++ b :: rest) []
      = some (.error (.netlinkError c), rest) := by
    rw [netlink_get_loop_append st.store ids (b :: rest) [] hgood]
    simp [netlink_get_loop, hbad]
  have hstep : netlink_get st K = some (.error (.netlinkError c),
      { st with listeners := upd_listeners st.listeners K (some rest) }) := by
    simp only [netlink_get, hq, hloop]
  exact ⟨_, hstep, by simp [upd_listeners_apply]⟩

/-- Witness for C10: queue 6 delivers one MULTI reply, then a message
with error code 95; `get` raises the typed error and queue 6 survives
with the unconsumed remainder. -/
theorem get_error_preserves_queue_witness :
    ∃ st', netlink_get getW10state 6 = some (.error (.netlinkError 95), st') ∧
      st'.listeners 6 = some [2] :=
  get_error_preserves_queue getW10state 6 [0] 1 [2] 95 (by decide) rfl (by decide) rfl

/-- One successful iteration of the parse loop: with the 6-byte prefix
readable, the error peek succeeding and the decode succeeding, the
loop records the decoded message with its error slot filled and
advances the offset by the decoded declared length. -/
theorem marshal_parse_loop_step (data : List Nat) (fuel offset : Nat) (result : List nlmsg)
    (len ty : Nat) (m : nlmsg) (pos2 : Nat) (err : Option Nat)
    (hoff : offset < data.length)
    (h1 : readU32LE data offset = some len)
    (h2 : readU16LE data (offset + 4) = some ty)
    (herr : marshal_err_peek data ty = .ok err)
    (hdec : nlmsg_decode data offset = some (m, pos2)) :
    marshal_parse_loop data (fuel + 1) offset result =
      marshal_parse_loop data fuel (offset + m.length) (result ++ [{ m with error := err }]) := by
  rw [marshal_parse_loop]
  rw [if_pos hoff]
  simp only [h1, h2, herr, hdec]

/-- Termination of the parse loop: once the offset has reached the
buffer length, the accumulated result is returned. -/
theorem marshal_parse_loop_done (data : List Nat) (fuel offset : Nat) (result : List nlmsg)
    (h : ¬ offset < data.length) :
    marshal_parse_loop data fuel offset result = .ok result := by
  cases fuel with
  | zero => rw [marshal_parse_loop, if_neg h]
  | succ fuel' => rw [marshal_parse_loop, if_neg h]

/-- Claim C7: parsing a single error-type frame whose int32 code field
at offset 16 holds `C` (any value representable as a nonnegative
int32) yields one message whose header error is the typed error with
code `C` when `C > 0`, and no error when `C = 0`. -/
theorem parse_error_frame_code (C : Nat) (hC : C < 2 ^ 31) :
    ∃ m : nlmsg, marshal_parse (errFrame C) = .ok [m] ∧
      (0 < C → m.error = some C) ∧ (C = 0 → m.error = none) := by
  have hlen : (errFrame C).length = 20 := rfl
  have h1 : readU32LE (errFrame C) 0 = some 20 := rfl
  have h2 : readU16LE (errFrame C) (0 + 4) = some 2 := rfl
  have hbytes : readBytes (errFrame C) 16 4 =
      some [C % 256, C / 2 ^ 8 % 256, C / 2 ^ 16 % 256, C / 2 ^ 24 % 256] := rfl
  have hval : bytesToNatLE [C % 256, C / 2 ^ 8 % 256, C / 2 ^ 16 % 256, C / 2 ^ 24 % 256]
      = C := by
    norm_num [bytesToNatLE]
    omega
  have hi32 : readI32LE (errFrame C) 16 = some (C : Int) := by
    rw [readI32LE, hbytes]
    simp only [Option.map_some']
    rw [hval, if_pos hC]
  have herr : marshal_err_peek (errFrame C) 2 = .ok (if 0 < C then some C else none) := by
    rw [marshal_err_peek]
    rw [if_pos (show (2 : Nat) = NLMSG_ERROR from rfl), hi32]
    simp [Int.natAbs_ofNat]
  have hdec : nlmsg_decode (errFrame C) 0 = some
      (⟨20, 2, 0, 0, 0, none,
        [C % 256, C / 2 ^ 8 % 256, C / 2 ^ 16 % 256, C / 2 ^ 24 % 256]⟩, 20) := rfl
  have hmain : marshal_parse (errFrame C) =
      .ok [⟨20, 2, 0, 0, 0, if 0 < C then some C else none,
        [C % 256, C / 2 ^ 8 % 256, C / 2 ^ 16 % 256, C / 2 ^ 24 % 256]⟩] := by
    show marshal_parse_loop (errFrame C) ((errFrame C).length + 1) 0 [] = _
    rw [hlen]
    rw [marshal_parse_loop_step (errFrame C) 20 0 [] 20 2 _ 20
      (if 0 < C then some C else none) (by rw [hlen]; norm_num) h1 h2 herr hdec]
    rw [marshal_parse_loop_done _ _ _ _ (by rw [hlen]; norm_num)]
    simp
  exact ⟨_, hmain, fun h => by rw [if_pos h], fun h => by subst h; rw [if_neg (by norm_num)]⟩

/-- Witness for C7 at code 3: the frame decodes to one message whose
error is the typed error with code 3. -/
theorem parse_error_frame_code_witness :
    ∃ m : nlmsg, marshal_parse (errFrame 3) = .ok [m] ∧
      (0 < 3 → m.error = some 3) ∧ (3 = 0 → m.error = none) :=
  parse_error_frame_code 3 (by norm_num)

/-- Reading a span that lies entirely inside the middle list of a
concatenation only depends on that middle list. -/
theorem readBytes_append (pre f suf : List Nat) (k n : Nat) (h : k + n ≤ f.length) :
    readBytes (pre ++ (f ++ suf)) (pre.length + k) n = readBytes f k n := by
  unfold readBytes
  rw [if_pos (by simp only [List.length_append]; omega), if_pos h]
  congr 1
  rw [List.drop_append, List.drop_append_of_le_length (by omega : k ≤ f.length),
    List.take_append_of_le_length (by simp only [List.length_drop]; omega)]

/-- Localized unsigned 32-bit read. -/
theorem readU32LE_append (pre f suf : List Nat) (k : Nat) (h : k + 4 ≤ f.length) :
    readU32LE (pre ++ (f ++ suf)) (pre.length + k) = readU32LE f k :=
  congrArg (Option.map bytesToNatLE) (readBytes_append pre f suf k 4 h)

/-- Localized unsigned 16-bit read. -/
theorem readU16LE_append (pre f suf : List Nat) (k : Nat) (h : k + 2 ≤ f.length) :
    readU16LE (pre ++ (f ++ suf)) (pre.length + k) = readU16LE f k :=
  congrArg (Option.map bytesToNatLE) (readBytes_append pre f suf k 2 h)

/-- A well-formed frame — at least a full common header and a declared
length equal to its size — decodes on its own to a message whose
`length` is the frame size, whose error slot is empty, and whose type
is what the 16-bit read at offset 4 yields. -/
theorem nlmsg_decode_wf (f : List Nat) (h16 : 16 ≤ f.length)
    (hlen : readU32LE f 0 = some f.length) :
    ∃ ty flags seq pid,
      readU16LE f 4 = some ty ∧
      nlmsg_decode f 0 = some
        (⟨f.length, ty, flags, seq, pid, none, (f.drop 16).take (f.length - 16)⟩,
         f.length) := by
  have r4 : readU16LE f 4 = some (bytesToNatLE ((f.drop 4).take 2)) := by
    rw [readU16LE, readBytes, if_pos (by omega)]
    rfl
  have r6 : readU16LE f 6 = some (bytesToNatLE ((f.drop 6).take 2)) := by
    rw [readU16LE, readBytes, if_pos (by omega)]
    rfl
  have r8 : readU32LE f 8 = some (bytesToNatLE ((f.drop 8).take 4)) := by
    rw [readU32LE, readBytes, if_pos (by omega)]
    rfl
  have r12 : readU32LE f 12 = some (bytesToNatLE ((f.drop 12).take 4)) := by
    rw [readU32LE, readBytes, if_pos (by omega)]
    rfl
  have rbody : readBytes f 16 (f.length - 16) = some ((f.drop 16).take (f.length - 16)) := by
    rw [readBytes, if_pos (by omega)]
  refine ⟨bytesToNatLE ((f.drop 4).take 2), bytesToNatLE ((f.drop 6).take 2),
    bytesToNatLE ((f.drop 8).take 4), bytesToNatLE ((f.drop 12).take 4), r4, ?_⟩
  unfold nlmsg_decode
  simp only [Nat.zero_add, hlen, r4, r6, r8, r12, rbody, Option.some_bind]

/-- Decoding a well-formed frame embedded after a prefix yields the
same message as decoding the frame alone, with the cursor advanced
past the frame. -/
theorem nlmsg_decode_append (pre f suf : List Nat) (h16 : 16 ≤ f.length)
    (hlen : readU32LE f 0 = some f.length) :
    ∀ m pos2, nlmsg_decode f 0 = some (m, pos2) →
      nlmsg_decode (pre ++ (f ++ suf)) pre.length = some (m, pre.length + f.length) := by
  intro m pos2 hm
  obtain ⟨ty, hty⟩ : ∃ v, readU16LE f 4 = some v := by
    rw [readU16LE, readBytes, if_pos (by omega : 4 + 2 ≤ f.length)]
    exact ⟨_, rfl⟩
  obtain ⟨flags, hfl⟩ : ∃ v, readU16LE f 6 = some v := by
    rw [readU16LE, readBytes, if_pos (by omega : 6 + 2 ≤ f.length)]
    exact ⟨_, rfl⟩
  obtain ⟨seq, hseq⟩ : ∃ v, readU32LE f 8 = some v := by
    rw [readU32LE, readBytes, if_pos (by omega : 8 + 4 ≤ f.length)]
    exact ⟨_, rfl⟩
  obtain ⟨pid, hpid⟩ : ∃ v, readU32LE f 12 = some v := by
    rw [readU32LE, readBytes, if_pos (by omega : 12 + 4 ≤ f.length)]
    exact ⟨_, rfl⟩
  have hbodyf : readBytes f 16 (f.length - 16)
      = some ((f.drop 16).take (f.length - 16)) := by
    rw [readBytes, if_pos (by omega)]
  have hf : nlmsg_decode f 0 = some
      (⟨f.length, ty, flags, seq, pid, none, (f.drop 16).take (f.length - 16)⟩,
       f.length) := by
    unfold nlmsg_decode
    simp only [Nat.zero_add, hlen, hty, hfl, hseq, hpid, hbodyf, Option.some_bind]
  rw [hf] at hm
  simp only [Option.some.injEq, Prod.mk.injEq] at hm
  obtain ⟨hm1, _⟩ := hm
  subst hm1
  have b0 : readU32LE (pre ++ (f ++ suf)) (pre.length + 0) = readU32LE f 0 :=
    readU32LE_append pre f suf 0 (by omega)
  rw [Nat.add_zero] at b0
  have b4 := readU16LE_append pre f suf 4 (by omega : 4 + 2 ≤ f.length)
  have b6 := readU16LE_append pre f suf 6 (by omega : 6 + 2 ≤ f.length)
  have b8 := readU32LE_append pre f suf 8 (by omega : 8 + 4 ≤ f.length)
  have b12 := readU32LE_append pre f suf 12 (by omega : 12 + 4 ≤ f.length)
  have bbody := readBytes_append pre f suf 16 (f.length - 16) (by omega)
  unfold nlmsg_decode
  simp only [b0, b4, b6, b8, b12, bbody, hlen, hty, hfl, hseq, hpid, hbodyf,
    Option.some_bind]

/-- Running the parse loop over a prefix already consumed and a run of
well-formed back-to-back frames appends one decoded message per
frame, in wire order: each appended message, with its error slot
erased, is the standalone decode of its frame. -/
theorem marshal_parse_loop_frames (frames : List (List Nat)) :
    ∀ (pre : List Nat) (result : List nlmsg) (fuel : Nat),
    (∀ g ∈ frames, 16 ≤ g.length ∧ readU32LE g 0 = some g.length) →
    (∀ g ∈ frames, readU16LE g 4 = some NLMSG_ERROR →
      20 ≤ (pre ++ frames.flatten).length) →
    frames.length ≤ fuel →
    ∃ msgs : List nlmsg,
      marshal_parse_loop (pre ++ frames.flatten) fuel pre.length result
        = .ok (result ++ msgs) ∧
      msgs.length = frames.length ∧
      ∀ i (hi : i < frames.length) (hm : i < msgs.length),
        nlmsg_decode frames[i] 0 = some ({ msgs[i] with error := none }, frames[i].length) := by
  induction frames with
  | nil =>
    intro pre result fuel _ _ _
    refine ⟨[], ?_, rfl, ?_⟩
    · rw [List.flatten_nil, List.append_nil, marshal_parse_loop_done _ _ _ _ (by omega),
        List.append_nil]
    · intro i hi hm
      exact absurd hi (Nat.not_lt_zero i)
  | cons f fs ih =>
    intro pre result fuel hwf herr hfuel
    obtain ⟨h16, hlen⟩ := hwf f (List.mem_cons_self f fs)
    cases fuel with
    | zero => simp at hfuel
    | succ fuel' =>
      obtain ⟨ty, flags, seq, pid, hty, hdecf⟩ := nlmsg_decode_wf f h16 hlen
      have hflat : (f :: fs).flatten = f ++ fs.flatten := List.flatten_cons
      have l1 : readU32LE (pre ++ (f ++ fs.flatten)) pre.length = some f.length := by
        have h := readU32LE_append pre f fs.flatten 0 (by omega)
        rw [Nat.add_zero] at h
        rw [h, hlen]
      have l2 : readU16LE (pre ++ (f ++ fs.flatten)) (pre.length + 4) = some ty := by
        rw [readU16LE_append pre f fs.flatten 4 (by omega), hty]
      have ldec := nlmsg_decode_append pre f fs.flatten h16 hlen
        ⟨f.length, ty, flags, seq, pid, none, (f.drop 16).take (f.length - 16)⟩
        f.length hdecf
      obtain ⟨err, herr2⟩ : ∃ err,
          marshal_err_peek (pre ++ (f ++ fs.flatten)) ty = .ok err := by
        rw [marshal_err_peek]
        by_cases hty2 : ty = NLMSG_ERROR
        · rw [if_pos hty2]
          have h20 : 20 ≤ (pre ++ (f :: fs).flatten).length :=
            herr f (List.mem_cons_self f fs) (hty2 ▸ hty)
          rw [hflat] at h20
          obtain ⟨code, hcode⟩ : ∃ v,
              readI32LE (pre ++ (f ++ fs.flatten)) 16 = some v := by
            rw [readI32LE, readBytes, if_pos (by omega)]
            exact ⟨_, rfl⟩
          rw [hcode]
          exact ⟨_, rfl⟩
        · rw [if_neg hty2]
          exact ⟨none, rfl⟩
      have hoff : pre.length < (pre ++ (f ++ fs.flatten)).length := by
        simp only [List.length_append]
        omega
      have hstep := marshal_parse_loop_step (pre ++ (f ++ fs.flatten)) fuel' pre.length
        result f.length ty
        ⟨f.length, ty, flags, seq, pid, none, (f.drop 16).take (f.length - 16)⟩
        (pre.length + f.length) err hoff l1 l2 herr2 ldec
      have hdata2 : pre ++ (f ++ fs.flatten) = (pre ++ f) ++ fs.flatten :=
        (List.append_assoc pre f fs.flatten).symm
      have hlen2 : pre.length + f.length = (pre ++ f).length :=
        (List.length_append pre f).symm
      obtain ⟨msgs', hrun, hcount, hidx⟩ := ih (pre ++ f)
        (result ++ [⟨f.length, ty, flags, seq, pid, err, (f.drop 16).take (f.length - 16)⟩])
        fuel'
        (fun g hg => hwf g (List.mem_cons_of_mem f hg))
        (fun g hg h => by
          have h2 := herr g (List.mem_cons_of_mem f hg) h
          rw [hflat] at h2
          rw [← hdata2]
          exact h2)
        (by simp only [List.length_cons] at hfuel; omega)
      refine ⟨⟨f.length, ty, flags, seq, pid, err, (f.drop 16).take (f.length - 16)⟩ :: msgs',
        ?_, ?_, ?_⟩
      · rw [hflat, hstep, hdata2, hlen2]
        rw [hrun]
        simp
      · simp [hcount]
      · intro i hi hm
        cases i with
        | zero =>
          simp only [List.getElem_cons_zero]
          exact hdecf
        | succ j =>
          simp only [List.getElem_cons_succ]
          exact hidx j (by simp only [List.length_cons] at hi; omega)
            (by simp only [List.length_cons] at hm; omega)

/-- Claim C6: a well-formed buffer of N back-to-back frames — each at
least a full common header, declared length equal to its size, and
(for error-type frames) room for the peeked code — parses to exactly
N decoded messages in wire order: the i-th message, error slot aside,
is the standalone decode of the i-th frame, the cursor advancing by
each frame's declared length until it reaches the buffer length. -/
theorem parse_multiframe (frames : List (List Nat))
    (hwf : ∀ f ∈ frames, 16 ≤ f.length ∧ readU32LE f 0 = some f.length)
    (herr : ∀ f ∈ frames, readU16LE f 4 = some NLMSG_ERROR → 20 ≤ frames.flatten.length) :
    ∃ msgs : List nlmsg, marshal_parse frames.flatten = .ok msgs ∧
      msgs.length = frames.length ∧
      ∀ i (hi : i < frames.length) (hm : i < msgs.length),
        nlmsg_decode frames[i] 0 = some ({ msgs[i] with error := none }, frames[i].length) := by
  have hgrow : ∀ gs : List (List Nat), (∀ g ∈ gs, 1 ≤ g.length) →
      gs.length ≤ gs.flatten.length := by
    intro gs
    induction gs with
    | nil => simp
    | cons g gs ihg =>
      intro h
      have h1 := h g (List.mem_cons_self g gs)
      have h2 := ihg (fun x hx => h x (List.mem_cons_of_mem g hx))
      simp only [List.length_cons, List.flatten_cons, List.length_append]
      omega
  have hfuel : frames.length ≤ frames.flatten.length + 1 := by
    have := hgrow frames (fun g hg => le_trans (by norm_num) (hwf g hg).1)
    omega
  obtain ⟨msgs, h1, h2, h3⟩ := marshal_parse_loop_frames frames [] []
    (frames.flatten.length + 1) hwf (by simpa using herr) hfuel
  refine ⟨msgs, ?_, h2, h3⟩
  simpa [marshal_parse] using h1

/-- Witness for C6 on two concrete 16-byte frames: the buffer parses
to two messages that decode the two frames in order. -/
theorem parse_multiframe_witness :
    ∃ msgs : List nlmsg, marshal_parse framesW6.flatten = .ok msgs ∧
      msgs.length = framesW6.length ∧
      ∀ i (hi : i < framesW6.length) (hm : i < msgs.length),
        nlmsg_decode framesW6[i] 0
          = some ({ msgs[i] with error := none }, framesW6[i].length) :=
  parse_multiframe framesW6 (by decide) (by decide)
